import Mathlib

/-!
# SilentAlliance — verification of the authentication / messaging core

Shallow embedding of the SilentAlliance repository's auth and messaging
core, and proofs of the behavioural claims stated about it.

Sources embedded:
* `frontend/src/lib/crypto.ts` — fingerprint derivation, challenge signing;
* `frontend/src/lib/store.ts` — the zustand auth store;
* `frontend/src/lib/api.ts` — the API client's message payloads;
* `frontend/src/app/(main)/messages/page.tsx` — the client message
  encode/decode path (`btoa` / `atob`);
* the SQL initial schema — the `refresh_tokens`,
  `conversation_participants` and `messages` tables;
* server-side operations (challenge issue/verify, token rotation,
  registration, conversation creation) are absent from the repository
  snapshot; they are modelled from the spec where a claim needs them, and
  each such definition is marked `Modelled from the spec:`.

Machine integers are `Nat` with explicit `% 2 ^ 32` where the source
(SHA-256) wraps; bytes are `Nat`s with `< 256` side conditions; fallible
operations return `Option` or a sum type.
-/

namespace SilentAlliance

/-! ## Client auth store (`frontend/src/lib/store.ts`)

The zustand store state: `tokens`, `identity` and `keypair` are nullable
(modelled with `Option`), `isAuthenticated` is a plain boolean.  The four
operations are `setTokens`, `setIdentity`, `setKeypair` and `logout`,
each a pure state update as in the source (`set({...})` merges the given
fields into the state). -/

/-- Record `AuthTokens` as used by the store (`access_token`,
`refresh_token`, `expires_in`); field contents are opaque to the store
logic. -/
structure AuthTokens where
  access_token : String
  refresh_token : String
  expires_in : Nat
  deriving DecidableEq

/-- The subset of `Identity` the store holds; opaque to the store logic. -/
structure IdentityRec where
  id : String
  public_key_fingerprint : String
  display_name : Option String
  deriving DecidableEq

/-- Client-side keypair as stored (`publicKey`, `secretKey`, both Base64). -/
structure StoredKeypair where
  publicKey : String
  secretKey : String
  deriving DecidableEq

/-- State of `useAuthStore` (the fields of `AuthState` that are data, not
actions). -/
structure AuthState where
  tokens : Option AuthTokens
  identity : Option IdentityRec
  keypair : Option StoredKeypair
  isAuthenticated : Bool
  deriving DecidableEq

namespace AuthState

/-- Initial store state: `tokens: null, identity: null, keypair: null,
isAuthenticated: false`. -/
def init : AuthState :=
  { tokens := none, identity := none, keypair := none, isAuthenticated := false }

/-- Source: `setTokens: (tokens) => set({ tokens, isAuthenticated: true })`. -/
def setTokens (s : AuthState) (t : AuthTokens) : AuthState :=
  { s with tokens := some t, isAuthenticated := true }

/-- Source: `setIdentity: (identity) => set({ identity })`. -/
def setIdentity (s : AuthState) (i : IdentityRec) : AuthState :=
  { s with identity := some i }

/-- Source: `setKeypair: (keypair) => set({ keypair })`. -/
def setKeypair (s : AuthState) (k : StoredKeypair) : AuthState :=
  { s with keypair := some k }

/-- Source: `logout: () => set({ tokens: null, identity: null,
keypair: null, isAuthenticated: false })`. -/
def logout (_s : AuthState) : AuthState :=
  { tokens := none, identity := none, keypair := none, isAuthenticated := false }

/-- The store invariant: `isAuthenticated` is `true` exactly when `tokens`
is non-null. -/
def Inv (s : AuthState) : Prop :=
  s.isAuthenticated = true ↔ s.tokens ≠ none

instance (s : AuthState) : Decidable s.Inv := by
  unfold Inv; infer_instance

end AuthState

/-! ## Base64 (transport encoding)

The client uses Base64 throughout: `tweetnacl-util`'s
`encodeBase64`/`decodeBase64` for keys and signatures, and the browser's
`btoa`/`atob` for the placeholder message encoding in
`messages/page.tsx`.  All of these implement RFC 4648 Base64 with `=`
padding, which is embedded here over byte lists (`Nat`s, meaningful for
values `< 256`).  `decodeB64` rejects malformed input with `none`, as
`atob`/`decodeBase64` throw. -/

/-- The 64-character Base64 alphabet. -/
def b64Alphabet : List Char :=
  "ABCDEFGHIJKLMNOPQRSTUVWXYZabcdefghijklmnopqrstuvwxyz0123456789+/".toList

/-- Character for a 6-bit group. -/
def b64Char (n : Nat) : Char := b64Alphabet.getD n '='

/-- Index of a character in the Base64 alphabet; `none` for characters
outside it (including the padding character). -/
def b64Index (c : Char) : Option Nat := b64Alphabet.findIdx? (· == c)

/-- Base64 encoding of a byte list, processing 3 bytes into 4 characters,
with `=` padding on the final 1- or 2-byte group. -/
def encodeB64 : List Nat → List Char
  | [] => []
  | [b1] =>
      [b64Char (b1 >>> 2), b64Char ((b1 &&& 3) <<< 4), '=', '=']
  | [b1, b2] =>
      [b64Char (b1 >>> 2), b64Char (((b1 &&& 3) <<< 4) ||| (b2 >>> 4)),
       b64Char ((b2 &&& 15) <<< 2), '=']
  | b1 :: b2 :: b3 :: rest =>
      b64Char (b1 >>> 2) :: b64Char (((b1 &&& 3) <<< 4) ||| (b2 >>> 4)) ::
      b64Char (((b2 &&& 15) <<< 2) ||| (b3 >>> 6)) :: b64Char (b3 &&& 63) ::
      encodeB64 rest

/-- Base64 decoding: 4 characters to 3 bytes, with the final chunk allowed
to carry one or two `=` padding characters; anything else is malformed. -/
def decodeB64 : List Char → Option (List Nat)
  | [] => some []
  | c1 :: c2 :: c3 :: c4 :: rest => do
      let x1 ← b64Index c1
      let x2 ← b64Index c2
      if c3 = '=' then
        if c4 = '=' ∧ rest = [] then
          pure [(x1 <<< 2) ||| (x2 >>> 4)]
        else none
      else do
        let x3 ← b64Index c3
        if c4 = '=' then
          if rest = [] then
            pure [(x1 <<< 2) ||| (x2 >>> 4), ((x2 &&& 15) <<< 4) ||| (x3 >>> 2)]
          else none
        else do
          let x4 ← b64Index c4
          let tail ← decodeB64 rest
          pure ([(x1 <<< 2) ||| (x2 >>> 4), ((x2 &&& 15) <<< 4) ||| (x3 >>> 2),
                 ((x3 &&& 3) <<< 6) ||| x4] ++ tail)
  | _ => none

/-- Browser `btoa` (`messages/page.tsx` `handleSend`): Base64 of a string's
UTF-16 code units; throws (`none`) if any code unit exceeds 255. -/
def btoaJS (codeUnits : List Nat) : Option (List Char) :=
  if codeUnits.all (· < 256) then some (encodeB64 codeUnits) else none

/-- Browser `atob` (`messages/page.tsx` message display): Base64 decoding
back to a string of code units; throws (`none`) on malformed input. -/
def atobJS (s : List Char) : Option (List Nat) := decodeB64 s

/-! ## SHA-256 (`crypto.subtle.digest('SHA-256', …)`)

The fingerprint derivation in `crypto.ts` hashes the raw public key with
SHA-256.  FIPS 180-4 SHA-256 is embedded here over byte lists; 32-bit
words are `Nat`s reduced by `% 2 ^ 32` at every arithmetic step. -/

namespace SHA256

/-- Truncation to a 32-bit word. -/
def w32 (x : Nat) : Nat := x % 2 ^ 32

/-- Right rotation of a 32-bit word. -/
def rotr (x n : Nat) : Nat := w32 ((x >>> n) ||| (x <<< (32 - n)))

/-- Bitwise complement of a 32-bit word. -/
def compl32 (x : Nat) : Nat := x ^^^ (2 ^ 32 - 1)

/-- Choice function `Ch(x, y, z)`. -/
def ch (x y z : Nat) : Nat := (x &&& y) ^^^ (compl32 x &&& z)

/-- Majority function `Maj(x, y, z)`. -/
def maj (x y z : Nat) : Nat := (x &&& y) ^^^ (x &&& z) ^^^ (y &&& z)

/-- Big sigma-0. -/
def bs0 (x : Nat) : Nat := rotr x 2 ^^^ rotr x 13 ^^^ rotr x 22

/-- Big sigma-1. -/
def bs1 (x : Nat) : Nat := rotr x 6 ^^^ rotr x 11 ^^^ rotr x 25

/-- Small sigma-0. -/
def ss0 (x : Nat) : Nat := rotr x 7 ^^^ rotr x 18 ^^^ (x >>> 3)

/-- Small sigma-1. -/
def ss1 (x : Nat) : Nat := rotr x 17 ^^^ rotr x 19 ^^^ (x >>> 10)

/-- Round constants. -/
def K : List Nat :=
  [
   1116352408, 1899447441, 3049323471, 3921009573, 961987163,
   1508970993, 2453635748, 2870763221, 3624381080, 310598401,
   607225278, 1426881987, 1925078388, 2162078206, 2614888103,
   3248222580, 3835390401, 4022224774, 264347078, 604807628,
   770255983, 1249150122, 1555081692, 1996064986, 2554220882,
   2821834349, 2952996808, 3210313671, 3336571891, 3584528711,
   113926993, 338241895, 666307205, 773529912, 1294757372,
   1396182291, 1695183700, 1986661051, 2177026350, 2456956037,
   2730485921, 2820302411, 3259730800, 3345764771, 3516065817,
   3600352804, 4094571909, 275423344, 430227734, 506948616,
   659060556, 883997877, 958139571, 1322822218, 1537002063,
   1747873779, 1955562222, 2024104815, 2227730452, 2361852424,
   2428436474, 2756734187, 3204031479, 3329325298]

/-- Initial hash value. -/
def H0 : List Nat :=
  [
   1779033703, 3144134277, 1013904242, 2773480762,
   1359893119, 2600822924, 528734635, 1541459225]

/-- Message padding: append `0x80`, zero bytes to 56 mod 64, then the
64-bit big-endian bit length. -/
def pad (msg : List Nat) : List Nat :=
  let bitLen := 8 * msg.length
  let zeros := (119 - msg.length % 64) % 64
  msg ++ 0x80 :: List.replicate zeros 0 ++
    [(bitLen >>> 56) % 256, (bitLen >>> 48) % 256, (bitLen >>> 40) % 256,
     (bitLen >>> 32) % 256, (bitLen >>> 24) % 256, (bitLen >>> 16) % 256,
     (bitLen >>> 8) % 256, bitLen % 256]

/-- Group a byte list into big-endian 32-bit words (4 bytes each). -/
def toWords : List Nat → List Nat
  | b0 :: b1 :: b2 :: b3 :: rest =>
      ((b0 <<< 24) ||| (b1 <<< 16) ||| (b2 <<< 8) ||| b3) :: toWords rest
  | _ => []

/-- Message-schedule extension: given the sliding window of the previous
16 schedule words, produce the next `n` words. -/
def extendW : Nat → List Nat → List Nat
  | 0, _ => []
  | n + 1, [a0, a1, a2, a3, a4, a5, a6, a7, a8, a9, a10, a11, a12, a13, a14, a15] =>
      let nw := w32 (ss1 a14 + a9 + ss0 a1 + a0)
      nw :: extendW n [a1, a2, a3, a4, a5, a6, a7, a8, a9, a10, a11, a12, a13, a14, a15, nw]
  | _ + 1, _ => []

/-- The 64-word message schedule of one 16-word block. -/
def schedule (block : List Nat) : List Nat := block ++ extendW 48 block

/-- Working state of the compression loop. -/
structure Regs where
  a : Nat
  b : Nat
  c : Nat
  d : Nat
  e : Nat
  f : Nat
  g : Nat
  h : Nat

/-- One compression round. -/
def round (st : Regs) (k w : Nat) : Regs :=
  let t1 := w32 (st.h + bs1 st.e + ch st.e st.f st.g + k + w)
  let t2 := w32 (bs0 st.a + maj st.a st.b st.c)
  { a := w32 (t1 + t2), b := st.a, c := st.b, d := st.c,
    e := w32 (st.d + t1), f := st.e, g := st.f, h := st.g }

/-- The 64 compression rounds, consuming constants and schedule words in
lockstep. -/
def roundsLoop : List Nat → List Nat → Regs → Regs
  | k :: ks, w :: ws, st => roundsLoop ks ws (round st k w)
  | _, _, st => st

/-- Add the final working state back into the intermediate hash value. -/
def addState (hs : List Nat) (st : Regs) : List Nat :=
  [w32 (hs.getD 0 0 + st.a), w32 (hs.getD 1 0 + st.b),
   w32 (hs.getD 2 0 + st.c), w32 (hs.getD 3 0 + st.d),
   w32 (hs.getD 4 0 + st.e), w32 (hs.getD 5 0 + st.f),
   w32 (hs.getD 6 0 + st.g), w32 (hs.getD 7 0 + st.h)]

/-- Compression of one 16-word block into the intermediate hash value. -/
def compress (hs : List Nat) (block : List Nat) : List Nat :=
  addState hs
    (roundsLoop K (schedule block)
      { a := hs.getD 0 0, b := hs.getD 1 0, c := hs.getD 2 0, d := hs.getD 3 0,
        e := hs.getD 4 0, f := hs.getD 5 0, g := hs.getD 6 0, h := hs.getD 7 0 })

/-- Split a byte list into 64-byte blocks. -/
def chunks64 (l : List Nat) : List (List Nat) :=
  if h : l = [] then [] else
    have : l.length - 64 < l.length := by
      have : 0 < l.length := List.length_pos.mpr h
      omega
    l.take 64 :: chunks64 (l.drop 64)
  termination_by l.length
  decreasing_by simpa using this

/-- Serialize the 8-word hash value to 32 big-endian bytes. -/
def wordsToBytes (ws : List Nat) : List Nat :=
  (ws.map (fun w => [(w >>> 24) % 256, (w >>> 16) % 256, (w >>> 8) % 256, w % 256])).flatten

/-- SHA-256 digest (32 bytes) of a byte list. -/
def sha256 (msg : List Nat) : List Nat :=
  wordsToBytes ((chunks64 (pad msg)).foldl (fun hs b => compress hs (toWords b)) H0)

end SHA256

/-! ## Fingerprints and signing (`frontend/src/lib/crypto.ts`) -/

/-- Hex digit character, lowercase, as produced by JavaScript
`Number.toString(16)`. -/
def hexDigit (n : Nat) : Char := Nat.digitChar n

/-- Source: `b.toString(16).padStart(2, '0')` for a byte `b`; for
`b < 256` this is exactly the two hex digits of `b / 16` and `b % 16`. -/
def byteToHex (b : Nat) : List Char := [hexDigit (b / 16), hexDigit (b % 16)]

/-- Source: `hashArray.map((b) => b.toString(16).padStart(2, '0')).flatten('')`. -/
def hexEncode (bs : List Nat) : List Char := (bs.map byteToHex).flatten

/-- Fingerprint of raw public-key bytes: lowercase hex of the SHA-256
digest, as computed in both `generateKeypair` and `getFingerprint`. -/
def fingerprintBytes (pk : List Nat) : List Char := hexEncode (SHA256.sha256 pk)

/-- Result of `generateKeypair` (`crypto.ts`): the keypair structure with
Base64-encoded keys and the fingerprint of the raw public key.  The
random raw key material produced by `nacl.sign.keyPair()` is taken as
input. -/
structure KeyPair where
  publicKey : List Char
  secretKey : List Char
  fingerprint : List Char
  deriving DecidableEq

/-- Source: `generateKeypair` — Base64-encode both raw keys and compute
the fingerprint as the hex SHA-256 of the raw public key bytes. -/
def generateKeypair (rawPublicKey rawSecretKey : List Nat) : KeyPair :=
  { publicKey := encodeB64 rawPublicKey,
    secretKey := encodeB64 rawSecretKey,
    fingerprint := hexEncode (SHA256.sha256 rawPublicKey) }

/-- Source: `getFingerprint(publicKeyBase64)` — decode the Base64 public
key and return the hex SHA-256 of the raw bytes; `none` if the Base64 is
malformed (where `decodeBase64` would throw). -/
def getFingerprint (publicKeyBase64 : List Char) : Option (List Char) :=
  (decodeB64 publicKeyBase64).map (fun pk => hexEncode (SHA256.sha256 pk))

/-- The lowercase hexadecimal alphabet, the character set of fingerprints. -/
def hexAlphabet : List Char := "0123456789abcdef".toList

/-! ## Identity registry

Modelled from the spec: `register(public_key, display_name?)` computes the
fingerprint and fails with `DuplicateFingerprint` if an identity with that
fingerprint already exists; `lookup(fingerprint)` resolves an identity.
The backing `identities` table (SQL schema) declares `public_key` and
`public_key_fingerprint` UNIQUE.  The fingerprint derivation is the same
SHA-256-hex used by the client (`crypto.ts`). -/

/-- A row of the `identities` table (the fields the registry operations
touch). -/
structure IdentityRow where
  id : Nat
  public_key : List Nat
  fingerprint : List Char
  display_name : Option String
  deriving DecidableEq

/-- The registry state: stored rows plus a fresh-id counter standing for
`gen_random_uuid()`. -/
structure Registry where
  rows : List IdentityRow
  nextId : Nat
  deriving DecidableEq

/-- Registration failure: an identity with the same fingerprint exists. -/
inductive RegisterError where
  | DuplicateFingerprint
  deriving DecidableEq

/-- Modelled from the spec: `lookup(fingerprint) -> Identity | Err(NotFound)`
(`none` is `NotFound`). -/
def lookupIdentity (reg : Registry) (fp : List Char) : Option IdentityRow :=
  reg.rows.find? (fun r => r.fingerprint == fp)

/-- Modelled from the spec: `register(public_key, display_name?)` — compute
the fingerprint, fail if it is already present, otherwise persist a new
row. -/
def register (reg : Registry) (pk : List Nat) (dn : Option String) :
    (RegisterError ⊕ IdentityRow) × Registry :=
  let fp := fingerprintBytes pk
  match lookupIdentity reg fp with
  | some _ => (.inl .DuplicateFingerprint, reg)
  | none =>
      let row : IdentityRow :=
        { id := reg.nextId, public_key := pk, fingerprint := fp, display_name := dn }
      (.inr row, { rows := row :: reg.rows, nextId := reg.nextId + 1 })

/-! ## Challenge issue / verify

Modelled from the spec: the challenge store is keyed by fingerprint, holds
at most one outstanding challenge per fingerprint (a new `issue`
supersedes the previous one), and `verify` checks and consumes
atomically.  The signature check is abstracted as a boolean predicate
over (challenge bytes, signature bytes), standing for Ed25519
verification under the identity's registered public key. -/

/-- An ephemeral challenge record: nonce and expiry. -/
structure ChallengeRec where
  nonce : List Nat
  expiresAt : Nat
  deriving DecidableEq

/-- The short-TTL challenge store, keyed by fingerprint. -/
abbrev ChallengeStore := List (List Char × ChallengeRec)

/-- Verification failures of the challenge protocol. -/
inductive VerifyError where
  | ChallengeNotFound
  | ChallengeExpired
  | InvalidSignature
  deriving DecidableEq

/-- The outstanding challenge of a fingerprint, if any. -/
def challengeLookup (st : ChallengeStore) (fp : List Char) : Option ChallengeRec :=
  (st.find? (fun p => p.1 == fp)).map Prod.snd

/-- Modelled from the spec: `issue(fingerprint)` stores a fresh nonce and
expiry for the fingerprint, superseding any prior outstanding challenge. -/
def issueChallenge (st : ChallengeStore) (fp : List Char) (nonce : List Nat)
    (expiresAt : Nat) : ChallengeStore :=
  (fp, { nonce := nonce, expiresAt := expiresAt }) :: st.filter (fun p => !(p.1 == fp))

/-- Modelled from the spec: `verify(fingerprint, challenge, signature)` —
look up the outstanding challenge, reject a missing or mismatched
challenge, an expired one, or a bad signature, and on success delete the
record in the same step. -/
def verifyChallenge (checkSig : List Nat → List Nat → Bool) (st : ChallengeStore)
    (fp : List Char) (challenge sig : List Nat) (now : Nat) :
    Option VerifyError × ChallengeStore :=
  match challengeLookup st fp with
  | none => (some .ChallengeNotFound, st)
  | some rec =>
      if rec.nonce ≠ challenge then (some .ChallengeNotFound, st)
      else if rec.expiresAt ≤ now then (some .ChallengeExpired, st)
      else if !(checkSig challenge sig) then (some .InvalidSignature, st)
      else (none, st.filter (fun p => !(p.1 == fp)))

/-! ## Signature scheme

Modelled from the spec: Ed25519 (`nacl.sign.detached` /
`nacl.sign.detached.verify`) as an ideal deterministic signature scheme
over byte lists.  The Base64 transport of keys and signatures used by
`crypto.ts` is the encoding proved bijective above; the scheme itself is
kept abstract, with its defining properties stated as hypotheses of the
theorems that use it. -/

/-- A deterministic signature scheme: `sign message secretKey`, the
public key derived from a secret key, and `verify publicKey message
signature`. -/
structure SigScheme where
  sign : List Nat → List Nat → List Nat
  pkOf : List Nat → List Nat
  verify : List Nat → List Nat → List Nat → Bool

/-- Source: `signChallenge(challenge, secretKeyBase64)` — sign the exact
challenge bytes with the secret key (the surrounding Base64
decode/encode of `crypto.ts` is the transport proved bijective above). -/
def signChallenge (M : SigScheme) (challenge secretKey : List Nat) : List Nat :=
  M.sign challenge secretKey

/-- An injective numeric encoding of byte lists, used to build a concrete
witness signature scheme. -/
def encL (l : List Nat) : Nat :=
  l.foldr (fun a acc => Nat.pair a acc + 1) 0

/-- A concrete scheme satisfying the ideal-signature hypotheses: the
signature is a canonical injective encoding of (message, key). -/
def toySigScheme : SigScheme :=
  { sign := fun m sk => [Nat.pair (encL m) (encL sk)],
    pkOf := fun sk => sk,
    verify := fun pk m s => s == [Nat.pair (encL m) (encL pk)] }

/-- A concrete key-wrapping function used to witness the envelope
properties: the wrapped key is the conversation key extended with an
injective tag of the participant key. -/
def wrapToy (k pk : List Nat) : List Nat := k ++ [encL pk]

/-! ## Refresh tokens

The `refresh_tokens` table of the SQL schema stores rotation state as a
single boolean column (`revoked BOOLEAN DEFAULT FALSE`).  The spec's
three-state machine `Active/Consumed/Revoked` and the `rotate` /
`revokeFamily` operations are absent from the snapshot and modelled from
the spec. -/

/-- A row of the `refresh_tokens` table exactly as declared in the SQL
schema: `id`, `identity_id`, `token_hash`, `family_id`, `expires_at`,
`revoked BOOLEAN`, `created_at`. -/
structure RefreshTokenRow where
  id : Nat
  identity_id : Nat
  token_hash : Nat
  family_id : Nat
  expires_at : Nat
  revoked : Bool
  created_at : Nat
  deriving DecidableEq

/-- Modelled from the spec: the three-state refresh-token lifecycle. -/
inductive TokenState where
  | Active
  | Consumed
  | Revoked
  deriving DecidableEq

/-- Modelled from the spec: the legal transitions — `Active → Consumed`
(rotation), `Active → Revoked` and `Consumed → Revoked` (reuse or
logout); there is no transition out of `Revoked`. -/
inductive TokenStep : TokenState → TokenState → Prop where
  | consume : TokenStep .Active .Consumed
  | revokeActive : TokenStep .Active .Revoked
  | revokeConsumed : TokenStep .Consumed .Revoked

/-- A refresh-token row as the modelled tracker sees it (the schema row
with the spec's three-state field in place of the boolean). -/
structure TokenRow where
  tokenHash : Nat
  familyId : Nat
  identityId : Nat
  state : TokenState
  expiresAt : Nat
  deriving DecidableEq

/-- The refresh-token table. -/
abbrev TokenStore := List TokenRow

/-- Errors of `rotate`. -/
inductive RotateError where
  | TokenInvalid
  | TokenExpired
  | TokenReuseDetected
  deriving DecidableEq

/-- Row lookup by token hash (`token_hash` is UNIQUE in the schema). -/
def findToken (rows : TokenStore) (h : Nat) : Option TokenRow :=
  rows.find? (fun r => r.tokenHash == h)

/-- Modelled from the spec: the `Active → Consumed` write of rotation
step 5, keyed by token hash. -/
def consumeToken (rows : TokenStore) (h : Nat) : TokenStore :=
  rows.map (fun r => if r.tokenHash == h then { r with state := .Consumed } else r)

/-- Modelled from the spec: `revokeFamily(family_id)` bulk-marks every row
of the family `Revoked` in one set-based update. -/
def revokeFamily (rows : TokenStore) (fid : Nat) : TokenStore :=
  rows.map (fun r => if r.familyId == fid then { r with state := .Revoked } else r)

/-- Modelled from the spec: `rotate(presented_token)` — hash and look up;
missing or expired rows are `TokenInvalid`/`TokenExpired`; a `Revoked`
row is `TokenInvalid`; a `Consumed` row is a replay, revoking the whole
family atomically and returning `TokenReuseDetected`; an `Active` row is
consumed and a fresh `Active` row is inserted in the same family.  The
fresh token value and its expiry are supplied by the caller's entropy
source and clock. -/
def rotate (hash : Nat → Nat) (rows : TokenStore) (presented now fresh freshExpiry : Nat) :
    (RotateError ⊕ Nat) × TokenStore :=
  match findToken rows (hash presented) with
  | none => (.inl .TokenInvalid, rows)
  | some r =>
      if r.expiresAt ≤ now then (.inl .TokenExpired, rows)
      else
        match r.state with
        | .Revoked => (.inl .TokenInvalid, rows)
        | .Consumed => (.inl .TokenReuseDetected, revokeFamily rows r.familyId)
        | .Active =>
            (.inr fresh,
              { tokenHash := hash fresh, familyId := r.familyId,
                identityId := r.identityId, state := .Active,
                expiresAt := freshExpiry } :: consumeToken rows r.tokenHash)

/-! ## Conversations and messages

The `conversation_participants` table stores one `encrypted_key BYTEA`
envelope per `(conversation_id, identity_id)` (UNIQUE); the `messages`
table stores opaque `encrypted_content`/`nonce` pairs.  The server-side
handlers are absent from the snapshot; `createConversation` and
`sendMessage` are modelled from the spec, with the per-participant key
wrapping abstracted as a function of (conversation key, participant
public key). -/

/-- A participant as seen at conversation creation: identity and public
key material. -/
structure ParticipantKey where
  identityId : Nat
  publicKey : List Nat
  deriving DecidableEq

/-- A row of `conversation_participants` (the envelope-bearing fields). -/
structure EnvelopeRow where
  conversationId : Nat
  identityId : Nat
  encrypted_key : List Nat
  deriving DecidableEq

/-- A row of `messages` (the relay-relevant fields; content and nonce as
submitted by the client, Base64 strings over the JSON transport). -/
structure MessageRow where
  conversationId : Nat
  senderId : Nat
  encrypted_content : List Char
  nonce : List Char
  deriving DecidableEq

/-- The durable message-layer state: envelopes and messages. -/
structure ServerStore where
  envelopes : List EnvelopeRow
  messages : List MessageRow
  deriving DecidableEq

/-- Modelled from the spec: `createConversation(participant_ids)` — one
fresh conversation key, one wrapped envelope per participant; the server
stores only the wrapped blobs. -/
def createConversation (wrap : List Nat → List Nat → List Nat) (st : ServerStore)
    (convId : Nat) (key : List Nat) (participants : List ParticipantKey) : ServerStore :=
  { st with
    envelopes :=
      participants.map (fun p =>
        { conversationId := convId, identityId := p.identityId,
          encrypted_key := wrap key p.publicKey }) ++ st.envelopes }

/-- Modelled from the spec: `sendMessage(conversation_id, ciphertext,
nonce)` — pure relay/store of the opaque pair, no interpretation. -/
def sendMessage (st : ServerStore) (convId senderId : Nat)
    (encrypted_content nonce : List Char) : MessageRow × ServerStore :=
  let row : MessageRow :=
    { conversationId := convId, senderId := senderId,
      encrypted_content := encrypted_content, nonce := nonce }
  (row, { st with messages := row :: st.messages })

/-- Read-back of a conversation's stored messages. -/
def getMessages (st : ServerStore) (convId : Nat) : List MessageRow :=
  st.messages.filter (fun m => m.conversationId == convId)

end SilentAlliance

namespace SilentAlliance

/-! ## Theorems -/

/-! ### Generic arithmetic and Base64 lemmas -/

/-- Disjoint bitwise-or is addition: a left-shifted value or-ed with a
value below the shift width. -/
theorem shiftLeft_or_eq_add {c n : Nat} (a : Nat) (h : c < 2 ^ n) :
    (a <<< n) ||| c = a * 2 ^ n + c := by
  rw [Nat.shiftLeft_eq, Nat.mul_comm, ← Nat.mul_add_lt_is_or h, Nat.mul_comm]

/-- The Base64 alphabet lookup inverts the character table on 6-bit
values. -/
theorem b64Index_b64Char {n : Nat} (h : n < 64) : b64Index (b64Char n) = some n := by
  have key : ∀ m : Fin 64, b64Index (b64Char m.val) = some m.val := by decide
  exact key ⟨n, h⟩

/-- No data character of the Base64 alphabet is the padding character. -/
theorem b64Char_ne_pad {n : Nat} (h : n < 64) : b64Char n ≠ '=' := by
  have key : ∀ m : Fin 64, b64Char m.val ≠ '=' := by decide
  exact key ⟨n, h⟩

/-- Masks by 3, 15 and 63 are residues modulo 4, 16 and 64. -/
theorem and_mod_pow2 (b : Nat) :
    b &&& 3 = b % 4 ∧ b &&& 15 = b % 16 ∧ b &&& 63 = b % 64 := by
  have h2 := Nat.and_pow_two_sub_one_eq_mod b 2
  have h4 := Nat.and_pow_two_sub_one_eq_mod b 4
  have h6 := Nat.and_pow_two_sub_one_eq_mod b 6
  norm_num at h2 h4 h6
  exact ⟨h2, h4, h6⟩

/-- Base64 round-trip, one-byte tail group. -/
theorem roundtrip_one {b1 : Nat} (h1 : b1 < 256) :
    decodeB64 (encodeB64 [b1]) = some [b1] := by
  have e1 : b1 >>> 2 < 64 := by rw [Nat.shiftRight_eq_div_pow]; omega
  have hx2 : (b1 &&& 3) <<< 4 = b1 % 4 * 16 := by
    rw [(and_mod_pow2 b1).1, Nat.shiftLeft_eq]
  have e2 : (b1 &&& 3) <<< 4 < 64 := by rw [hx2]; omega
  simp only [encodeB64, decodeB64, b64Index_b64Char e1, b64Index_b64Char e2,
    Option.bind_eq_bind, Option.some_bind, if_pos rfl, and_self, reduceIte]
  refine congrArg some ?_
  rw [hx2]
  simp only [Nat.shiftRight_eq_div_pow]
  rw [shiftLeft_or_eq_add _ (by omega)]
  norm_num
  omega

/-- Base64 round-trip, two-byte tail group. -/
theorem roundtrip_two {b1 b2 : Nat} (h1 : b1 < 256) (h2 : b2 < 256) :
    decodeB64 (encodeB64 [b1, b2]) = some [b1, b2] := by
  have e1 : b1 >>> 2 < 64 := by rw [Nat.shiftRight_eq_div_pow]; omega
  have hx2 : ((b1 &&& 3) <<< 4) ||| (b2 >>> 4) = b1 % 4 * 16 + b2 / 16 := by
    rw [(and_mod_pow2 b1).1, Nat.shiftRight_eq_div_pow, shiftLeft_or_eq_add _ (by omega)]
    norm_num
  have e2 : ((b1 &&& 3) <<< 4) ||| (b2 >>> 4) < 64 := by rw [hx2]; omega
  have hx3 : (b2 &&& 15) <<< 2 = b2 % 16 * 4 := by
    rw [(and_mod_pow2 b2).2.1, Nat.shiftLeft_eq]
  have e3 : (b2 &&& 15) <<< 2 < 64 := by rw [hx3]; omega
  simp only [encodeB64, decodeB64, b64Index_b64Char e1, b64Index_b64Char e2,
    b64Index_b64Char e3, Option.bind_eq_bind, Option.some_bind,
    if_neg (b64Char_ne_pad e3), if_pos rfl, reduceIte]
  refine congrArg some ?_
  rw [hx2, hx3, (and_mod_pow2 (b1 % 4 * 16 + b2 / 16)).2.1]
  simp only [Nat.shiftRight_eq_div_pow]
  rw [shiftLeft_or_eq_add _ (by omega), shiftLeft_or_eq_add _ (by omega)]
  simp only [List.cons.injEq, and_true]
  norm_num
  omega

/-- Base64 round-trip, full three-byte group followed by the rest. -/
theorem roundtrip_cons {b1 b2 b3 : Nat} {rest : List Nat}
    (h1 : b1 < 256) (h2 : b2 < 256) (h3 : b3 < 256)
    (ih : decodeB64 (encodeB64 rest) = some rest) :
    decodeB64 (encodeB64 (b1 :: b2 :: b3 :: rest)) =
      some (b1 :: b2 :: b3 :: rest) := by
  have e1 : b1 >>> 2 < 64 := by rw [Nat.shiftRight_eq_div_pow]; omega
  have hx2 : ((b1 &&& 3) <<< 4) ||| (b2 >>> 4) = b1 % 4 * 16 + b2 / 16 := by
    rw [(and_mod_pow2 b1).1, Nat.shiftRight_eq_div_pow, shiftLeft_or_eq_add _ (by omega)]
    norm_num
  have e2 : ((b1 &&& 3) <<< 4) ||| (b2 >>> 4) < 64 := by rw [hx2]; omega
  have hx3 : ((b2 &&& 15) <<< 2) ||| (b3 >>> 6) = b2 % 16 * 4 + b3 / 64 := by
    rw [(and_mod_pow2 b2).2.1, Nat.shiftRight_eq_div_pow, shiftLeft_or_eq_add _ (by omega)]
    norm_num
  have e3 : ((b2 &&& 15) <<< 2) ||| (b3 >>> 6) < 64 := by rw [hx3]; omega
  have hx4 : b3 &&& 63 = b3 % 64 := (and_mod_pow2 b3).2.2
  have e4 : b3 &&& 63 < 64 := by rw [hx4]; omega
  simp only [encodeB64, decodeB64, b64Index_b64Char e1, b64Index_b64Char e2,
    b64Index_b64Char e3, b64Index_b64Char e4, Option.bind_eq_bind, Option.some_bind,
    if_neg (b64Char_ne_pad e3), if_neg (b64Char_ne_pad e4), ih]
  refine congrArg some ?_
  rw [hx2, hx3, hx4, (and_mod_pow2 (b1 % 4 * 16 + b2 / 16)).2.1,
    (and_mod_pow2 (b2 % 16 * 4 + b3 / 64)).1]
  simp only [Nat.shiftRight_eq_div_pow]
  rw [shiftLeft_or_eq_add _ (by omega), shiftLeft_or_eq_add _ (by omega),
    shiftLeft_or_eq_add _ (by omega)]
  simp only [List.cons_append, List.nil_append, List.cons.injEq, and_true]
  norm_num
  omega

/-- Base64 round-trip: decoding inverts encoding on byte lists. -/
theorem decodeB64_encodeB64 :
    ∀ bs : List Nat, (∀ b ∈ bs, b < 256) →
      decodeB64 (encodeB64 bs) = some bs
  | [] => fun _ => rfl
  | [b1] => fun h => roundtrip_one (h b1 (by simp))
  | [b1, b2] => fun h => roundtrip_two (h b1 (by simp)) (h b2 (by simp))
  | b1 :: b2 :: b3 :: rest => fun h =>
      roundtrip_cons (h b1 (by simp)) (h b2 (by simp)) (h b3 (by simp))
        (decodeB64_encodeB64 rest (fun b hb => h b (by simp [hb])))

/-! ### SHA-256 output shape -/

/-- One compression step always yields the 8-word state. -/
theorem compress_length (hs b : List Nat) : (SHA256.compress hs b).length = 8 := rfl

/-- Folding compression over any block sequence preserves the 8-word
shape. -/
theorem foldl_compress_length (blocks : List (List Nat)) (hs : List Nat)
    (h : hs.length = 8) :
    (blocks.foldl (fun h b => SHA256.compress h (SHA256.toWords b)) hs).length = 8 := by
  induction blocks generalizing hs with
  | nil => simpa using h
  | cons b bs ih => exact ih _ (compress_length _ _)

/-- Serialization emits 4 bytes per word. -/
theorem wordsToBytes_length (ws : List Nat) :
    (SHA256.wordsToBytes ws).length = 4 * ws.length := by
  induction ws with
  | nil => rfl
  | cons w ws ih =>
      simp only [SHA256.wordsToBytes, List.map_cons, List.flatten_cons] at ih ⊢
      simp only [List.length_append, List.length_cons, List.length_nil] at ih ⊢
      omega

/-- Serialization emits bytes. -/
theorem wordsToBytes_lt (ws : List Nat) : ∀ b ∈ SHA256.wordsToBytes ws, b < 256 := by
  intro b hb
  simp only [SHA256.wordsToBytes, List.mem_flatten, List.mem_map] at hb
  obtain ⟨l, ⟨w, _, rfl⟩, hbl⟩ := hb
  simp only [List.mem_cons, List.not_mem_nil, or_false] at hbl
  rcases hbl with rfl | rfl | rfl | rfl <;> omega

/-- A SHA-256 digest is 32 bytes long. -/
theorem sha256_length (msg : List Nat) : (SHA256.sha256 msg).length = 32 := by
  unfold SHA256.sha256
  rw [wordsToBytes_length, foldl_compress_length]
  rfl

/-- A SHA-256 digest consists of bytes. -/
theorem sha256_lt (msg : List Nat) : ∀ b ∈ SHA256.sha256 msg, b < 256 := by
  unfold SHA256.sha256
  exact wordsToBytes_lt _

/-! ### Hex encoding -/

/-- Hex digits of values below 16 are lowercase hex characters. -/
theorem hexDigit_mem {n : Nat} (h : n < 16) : hexDigit n ∈ hexAlphabet := by
  have key : ∀ m : Fin 16, hexDigit m.val ∈ hexAlphabet := by decide
  exact key ⟨n, h⟩

/-- Hex encoding emits two characters per byte. -/
theorem hexEncode_length (bs : List Nat) : (hexEncode bs).length = 2 * bs.length := by
  induction bs with
  | nil => rfl
  | cons b bs ih =>
      simp only [hexEncode, List.map_cons, List.flatten_cons, byteToHex] at ih ⊢
      simp only [List.length_append, List.length_cons, List.length_nil] at ih ⊢
      omega

/-- Hex encoding of bytes emits only lowercase hex characters. -/
theorem hexEncode_mem {bs : List Nat} (h : ∀ b ∈ bs, b < 256) :
    ∀ c ∈ hexEncode bs, c ∈ hexAlphabet := by
  intro c hc
  simp only [hexEncode, List.mem_flatten, List.mem_map] at hc
  obtain ⟨l, ⟨b, hb, rfl⟩, hcl⟩ := hc
  have hb256 := h b hb
  simp only [byteToHex, List.mem_cons, List.not_mem_nil, or_false] at hcl
  rcases hcl with rfl | rfl
  · exact hexDigit_mem (by omega)
  · exact hexDigit_mem (by omega)

/-! ### Claims -/

/-- C6: `getFingerprint` is a pure function of the raw public key bytes:
whenever the Base64 input decodes to raw bytes `pk`, the result is the
lowercase hexadecimal encoding of the SHA-256 digest of `pk` — a
64-character string over the lowercase hex alphabet — and any Base64
spelling of the same raw bytes yields the same fingerprint. -/
theorem getFingerprint_sha256_hex (pkB64 : List Char) (pk : List Nat)
    (hdec : decodeB64 pkB64 = some pk) :
    getFingerprint pkB64 = some (hexEncode (SHA256.sha256 pk)) ∧
    (∀ fp, getFingerprint pkB64 = some fp →
      fp.length = 64 ∧ ∀ c ∈ fp, c ∈ hexAlphabet) ∧
    (∀ pkB64₂, decodeB64 pkB64₂ = some pk →
      getFingerprint pkB64₂ = getFingerprint pkB64) := by
  have hmain : getFingerprint pkB64 = some (hexEncode (SHA256.sha256 pk)) := by
    simp [getFingerprint, hdec]
  refine ⟨hmain, ?_, ?_⟩
  · intro fp hfp
    rw [hmain, Option.some.injEq] at hfp
    subst hfp
    constructor
    · rw [hexEncode_length, sha256_length]
    · exact hexEncode_mem (sha256_lt pk)
  · intro pkB64₂ hdec₂
    rw [hmain]
    simp [getFingerprint, hdec₂]

set_option maxRecDepth 4000 in
/-- Witness for C6 on a concrete 32-byte public key. -/
theorem getFingerprint_sha256_hex_witness :
    getFingerprint (encodeB64 (List.replicate 32 0)) =
      some (hexEncode (SHA256.sha256 (List.replicate 32 0))) :=
  (getFingerprint_sha256_hex (encodeB64 (List.replicate 32 0))
    (List.replicate 32 0) (by decide)).1

/-- C9: the two fingerprint derivations of the client agree: for any raw
key material, the `fingerprint` field computed inside `generateKeypair`
equals `getFingerprint` applied to the generated Base64 `publicKey`. -/
theorem generateKeypair_getFingerprint_agree (rawPk rawSk : List Nat)
    (h : ∀ b ∈ rawPk, b < 256) :
    getFingerprint (generateKeypair rawPk rawSk).publicKey =
      some ((generateKeypair rawPk rawSk).fingerprint) := by
  simp [getFingerprint, generateKeypair, decodeB64_encodeB64 rawPk h]

/-- Witness for C9 on a concrete 32-byte public key. -/
theorem generateKeypair_getFingerprint_agree_witness :
    getFingerprint (generateKeypair (List.replicate 32 7) []).publicKey =
      some ((generateKeypair (List.replicate 32 7) []).fingerprint) :=
  generateKeypair_getFingerprint_agree (List.replicate 32 7) [] (by decide)

/-- C8: a submitted ciphertext/nonce pair is stored by `sendMessage` and
returned on read exactly as submitted, and for a message the client
succeeded in encoding (`btoa`), decoding the read-back content with
`atob` reproduces the originally entered text. -/
theorem sendMessage_relay_roundtrip (st : ServerStore) (convId senderId : Nat)
    (text : List Nat) (enc nonce : List Char)
    (henc : btoaJS text = some enc) :
    (sendMessage st convId senderId enc nonce).1.encrypted_content = enc ∧
    (sendMessage st convId senderId enc nonce).1.nonce = nonce ∧
    (sendMessage st convId senderId enc nonce).1 ∈
      getMessages (sendMessage st convId senderId enc nonce).2 convId ∧
    atobJS enc = some text := by
  have henc' : (∀ b ∈ text, b < 256) ∧ enc = encodeB64 text := by
    unfold btoaJS at henc
    split at henc
    case isTrue hall =>
      simp only [Option.some.injEq] at henc
      simp only [List.all_eq_true, decide_eq_true_eq] at hall
      exact ⟨hall, henc.symm⟩
    case isFalse => cases henc
  refine ⟨rfl, rfl, ?_, ?_⟩
  · show (sendMessage st convId senderId enc nonce).1 ∈
      List.filter _ ((sendMessage st convId senderId enc nonce).1 :: st.messages)
    rw [List.filter_cons_of_pos (by simp [sendMessage])]
    exact List.mem_cons_self _ _
  · rw [henc'.2]
    exact decodeB64_encodeB64 text henc'.1

/-- Witness for C8 on a concrete two-byte message. -/
theorem sendMessage_relay_roundtrip_witness :
    (sendMessage ⟨[], []⟩ 0 1 (encodeB64 [104, 105]) [] ).1 ∈
      getMessages (sendMessage ⟨[], []⟩ 0 1 (encodeB64 [104, 105]) []).2 0 ∧
    atobJS (encodeB64 [104, 105]) = some [104, 105] := by
  have h := sendMessage_relay_roundtrip ⟨[], []⟩ 0 1 [104, 105]
    (encodeB64 [104, 105]) [] (by rfl)
  exact ⟨h.2.2.1, h.2.2.2⟩

/-- C5: after a successful `register`, `lookup` of the new identity's
fingerprint returns exactly the registered identity, and a second
`register` with the same public key fails with `DuplicateFingerprint`
leaving the registry unchanged. -/
theorem register_lookup_duplicate (reg : Registry) (pk : List Nat) (dn : Option String)
    (row : IdentityRow) (reg' : Registry)
    (hreg : register reg pk dn = (.inr row, reg')) :
    lookupIdentity reg' row.fingerprint = some row ∧
    ∀ dn₂, register reg' pk dn₂ = (.inl .DuplicateFingerprint, reg') := by
  cases hl : lookupIdentity reg (fingerprintBytes pk) with
  | some r =>
      rw [show register reg pk dn = (.inl .DuplicateFingerprint, reg) by
        simp [register, hl]] at hreg
      simp only [Prod.mk.injEq] at hreg
      exact absurd hreg.1 (by simp)
  | none =>
      rw [show register reg pk dn =
          (.inr { id := reg.nextId, public_key := pk,
                  fingerprint := fingerprintBytes pk, display_name := dn },
            ⟨{ id := reg.nextId, public_key := pk, fingerprint := fingerprintBytes pk,
               display_name := dn } :: reg.rows, reg.nextId + 1⟩) by
        simp [register, hl]] at hreg
      simp only [Prod.mk.injEq, Sum.inr.injEq] at hreg
      obtain ⟨hrow, hreg'⟩ := hreg
      subst hrow
      subst hreg'
      have hfirst : lookupIdentity
          ⟨{ id := reg.nextId, public_key := pk, fingerprint := fingerprintBytes pk,
             display_name := dn } :: reg.rows, reg.nextId + 1⟩
          (fingerprintBytes pk) =
          some { id := reg.nextId, public_key := pk,
                 fingerprint := fingerprintBytes pk, display_name := dn } := by
        unfold lookupIdentity
        exact List.find?_cons_of_pos _ (by simp)
      refine ⟨hfirst, ?_⟩
      intro dn₂
      simp [register, hfirst]

/-- Witness for C5 on a concrete registry and key. -/
theorem register_lookup_duplicate_witness :
    lookupIdentity (register ⟨[], 0⟩ [1, 2, 3] none).2 (fingerprintBytes [1, 2, 3]) =
      some ⟨0, [1, 2, 3], fingerprintBytes [1, 2, 3], none⟩ ∧
    (register (register ⟨[], 0⟩ [1, 2, 3] none).2 [1, 2, 3] none).1 =
      .inl .DuplicateFingerprint := by
  have h := register_lookup_duplicate ⟨[], 0⟩ [1, 2, 3] none
    ⟨0, [1, 2, 3], fingerprintBytes [1, 2, 3], none⟩
    (register ⟨[], 0⟩ [1, 2, 3] none).2 (by rfl)
  exact ⟨h.1, congrArg Prod.fst (h.2 none)⟩

/-- C3: a challenge is single-use — with an outstanding unexpired
challenge and a valid signature, `verify` succeeds, and any further
`verify` for the same fingerprint and challenge (any signature, any
time) fails with `ChallengeNotFound`, because the record is consumed in
the same step as the success. -/
theorem challenge_single_use (checkSig : List Nat → List Nat → Bool)
    (st : ChallengeStore) (fp : List Char) (ch sig : List Nat) (now : Nat)
    (rec : ChallengeRec)
    (hlook : challengeLookup st fp = some rec)
    (hnonce : rec.nonce = ch)
    (hexp : now < rec.expiresAt)
    (hsig : checkSig ch sig = true) :
    (verifyChallenge checkSig st fp ch sig now).1 = none ∧
    ∀ sig₂ now₂,
      (verifyChallenge checkSig (verifyChallenge checkSig st fp ch sig now).2
        fp ch sig₂ now₂).1 = some .ChallengeNotFound := by
  have h1 : ¬ rec.nonce ≠ ch := by simp [hnonce]
  have h2 : ¬ rec.expiresAt ≤ now := by omega
  have hver : verifyChallenge checkSig st fp ch sig now =
      (none, st.filter (fun p => !(p.1 == fp))) := by
    simp [verifyChallenge, hlook, h1, h2, hsig]
  refine ⟨by rw [hver], ?_⟩
  intro sig₂ now₂
  rw [hver]
  have hfind : (st.filter (fun p => !(p.1 == fp))).find? (fun p => p.1 == fp) = none := by
    rw [List.find?_eq_none]
    intro x hx
    have hmem := List.of_mem_filter hx
    simp only [Bool.not_eq_true'] at hmem
    simp [hmem]
  have hnone : challengeLookup (st.filter (fun p => !(p.1 == fp))) fp = none := by
    unfold challengeLookup
    rw [hfind]
    rfl
  simp [verifyChallenge, hnone]

/-- Witness for C3 on a concrete challenge store. -/
theorem challenge_single_use_witness :
    (verifyChallenge (fun _ _ => true) [(['a'], ⟨[5], 10⟩)] ['a'] [5] [] 0).1 = none ∧
    (verifyChallenge (fun _ _ => true)
      (verifyChallenge (fun _ _ => true) [(['a'], ⟨[5], 10⟩)] ['a'] [5] [] 0).2
      ['a'] [5] [] 3).1 = some .ChallengeNotFound := by
  have h := challenge_single_use (fun _ _ => true) [(['a'], ⟨[5], 10⟩)] ['a'] [5] [] 0
    ⟨[5], 10⟩ (by rfl) rfl (by decide) rfl
  exact ⟨h.1, h.2 [] 3⟩

/-- Unfolded form of the list encoding on a cons cell. -/
theorem encL_cons (a : Nat) (l : List Nat) :
    encL (a :: l) = Nat.pair a (encL l) + 1 := rfl

/-- The canonical list encoding is injective. -/
theorem encL_inj : ∀ x y : List Nat, encL x = encL y → x = y
  | [], [], _ => rfl
  | [], _ :: _, h => by simp [encL, encL_cons] at h
  | _ :: _, [], h => by simp [encL, encL_cons] at h
  | a :: l, b :: m, h => by
      rw [encL_cons, encL_cons] at h
      have h' : Nat.pair a (encL l) = Nat.pair b (encL m) := by omega
      rw [Nat.pair_eq_pair] at h'
      obtain ⟨rfl, h₂⟩ := h'
      rw [encL_inj l m h₂]

/-- The witness scheme verifies exactly the signatures it produces. -/
theorem toy_verify_iff : ∀ pk m s, toySigScheme.verify pk m s = true ↔
    ∃ sk, toySigScheme.pkOf sk = pk ∧ s = toySigScheme.sign m sk := by
  intro pk m s
  simp only [toySigScheme, beq_iff_eq]
  constructor
  · intro h
    exact ⟨pk, rfl, h⟩
  · rintro ⟨sk, rfl, rfl⟩
    rfl

/-- The witness scheme's public-key derivation is injective. -/
theorem toy_pkOf_inj : Function.Injective toySigScheme.pkOf := fun _ _ h => h

/-- The witness scheme's signatures separate messages. -/
theorem toy_sign_inj_msg : ∀ sk m m',
    toySigScheme.sign m sk = toySigScheme.sign m' sk → m = m' := by
  intro sk m m' h
  simp only [toySigScheme, List.cons.injEq, and_true] at h
  rw [Nat.pair_eq_pair] at h
  exact encL_inj _ _ h.1

/-- The witness scheme's signatures separate keys. -/
theorem toy_sign_inj_key : ∀ m sk sk',
    toySigScheme.sign m sk = toySigScheme.sign m sk' → sk = sk' := by
  intro m sk sk' h
  simp only [toySigScheme, List.cons.injEq, and_true] at h
  rw [Nat.pair_eq_pair] at h
  exact encL_inj _ _ h.2

/-- C4: for any deterministic signature scheme whose verification accepts
exactly the signatures of the key's owner (the ideal functionality of
Ed25519): the output of `signChallenge` verifies under the signer's
public key, while a changed challenge, a changed signature, or a
different keypair is rejected. -/
theorem signature_verification_exact (M : SigScheme)
    (hiff : ∀ pk m s, M.verify pk m s = true ↔
      ∃ sk, M.pkOf sk = pk ∧ s = M.sign m sk)
    (hpk : Function.Injective M.pkOf)
    (hmsg : ∀ sk m m', M.sign m sk = M.sign m' sk → m = m')
    (hkey : ∀ m sk sk', M.sign m sk = M.sign m sk' → sk = sk')
    (c sk : List Nat) :
    M.verify (M.pkOf sk) c (signChallenge M c sk) = true ∧
    (∀ c', c' ≠ c → M.verify (M.pkOf sk) c' (signChallenge M c sk) = false) ∧
    (∀ s', s' ≠ signChallenge M c sk → M.verify (M.pkOf sk) c s' = false) ∧
    (∀ sk', M.pkOf sk' ≠ M.pkOf sk →
      M.verify (M.pkOf sk') c (signChallenge M c sk) = false) := by
  refine ⟨(hiff _ _ _).mpr ⟨sk, rfl, rfl⟩, ?_, ?_, ?_⟩
  · intro c' hne
    rw [Bool.eq_false_iff]
    intro htrue
    obtain ⟨sk', hpk', hs⟩ := (hiff _ _ _).mp htrue
    cases hpk hpk'
    exact hne (hmsg sk c' c hs.symm)
  · intro s' hne
    rw [Bool.eq_false_iff]
    intro htrue
    obtain ⟨sk', hpk', hs⟩ := (hiff _ _ _).mp htrue
    cases hpk hpk'
    exact hne hs
  · intro sk' hne
    rw [Bool.eq_false_iff]
    intro htrue
    obtain ⟨sk'', hpk'', hs⟩ := (hiff _ _ _).mp htrue
    cases hkey c sk sk'' hs
    exact hne hpk''.symm

/-- Witness for C4 on the concrete witness scheme: the produced signature
verifies, and the same signature over a different challenge is
rejected. -/
theorem signature_verification_exact_witness :
    toySigScheme.verify (toySigScheme.pkOf [3]) [1]
      (signChallenge toySigScheme [1] [3]) = true ∧
    toySigScheme.verify (toySigScheme.pkOf [3]) [2]
      (signChallenge toySigScheme [1] [3]) = false := by
  have h := signature_verification_exact toySigScheme toy_verify_iff toy_pkOf_inj
    toy_sign_inj_msg toy_sign_inj_key [1] [3]
  exact ⟨h.1, h.2.1 [2] (by decide)⟩

/-- Token lookup commutes with hash-preserving row updates. -/
theorem findToken_map (f : TokenRow → TokenRow) (hf : ∀ r, (f r).tokenHash = r.tokenHash)
    (rows : TokenStore) (h : Nat) :
    findToken (rows.map f) h = (findToken rows h).map f := by
  induction rows with
  | nil => rfl
  | cons r rest ih =>
      by_cases hc : r.tokenHash = h
      · unfold findToken
        rw [List.map_cons, List.find?_cons_of_pos _ (by simp [hf, hc]),
          List.find?_cons_of_pos _ (by simp [hc])]
        rfl
      · unfold findToken
        rw [List.map_cons, List.find?_cons_of_neg _ (by simp [hf, hc]),
          List.find?_cons_of_neg _ (by simp [hc])]
        exact ih

/-- The consume update preserves token hashes. -/
theorem consume_preserves_hash (h : Nat) :
    ∀ r : TokenRow, ((fun r => if r.tokenHash == h
      then { r with state := .Consumed } else r) r).tokenHash = r.tokenHash := by
  intro r
  by_cases hc : r.tokenHash = h <;> simp [hc]

/-- The revoke update preserves token hashes. -/
theorem revoke_preserves_hash (fid : Nat) :
    ∀ r : TokenRow, ((fun r => if r.familyId == fid
      then { r with state := .Revoked } else r) r).tokenHash = r.tokenHash := by
  intro r
  by_cases hc : r.familyId = fid <;> simp [hc]

/-- After `revokeFamily`, every row of the family is in state `Revoked`. -/
theorem revokeFamily_state (rows : TokenStore) (fid : Nat) :
    ∀ r ∈ revokeFamily rows fid, r.familyId = fid → r.state = .Revoked := by
  intro r hr hfid
  simp only [revokeFamily, List.mem_map] at hr
  obtain ⟨q, hq, rfl⟩ := hr
  by_cases hc : q.familyId = fid
  · simp [hc]
  · simp only [beq_iff_eq, if_neg hc] at hfid
    exact absurd hfid hc

/-- C1: with an `Active`, unexpired token `t1` in the store and a fresh
replacement value `t2`, `rotate(t1)` succeeds exactly once: the first
call returns `t2` and installs it `Active` in the same family; the
second call with `t1` returns `TokenReuseDetected` and leaves every row
of the family `Revoked`; a subsequent `rotate(t2)` therefore also
fails. -/
theorem rotate_reuse_detection (hash : Nat → Nat) (rows : TokenStore)
    (t1 t2 t3 t4 : Nat) (now now₂ now₃ e2 e3 e4 : Nat) (r1 : TokenRow)
    (hfind : findToken rows (hash t1) = some r1)
    (hactive : r1.state = .Active)
    (hnotexp : now < r1.expiresAt)
    (hnotexp₂ : now₂ < r1.expiresAt)
    (hfresh : ∀ r ∈ rows, r.tokenHash ≠ hash t2) :
    (rotate hash rows t1 now t2 e2).1 = .inr t2 ∧
    findToken (rotate hash rows t1 now t2 e2).2 (hash t2) =
      some ⟨hash t2, r1.familyId, r1.identityId, .Active, e2⟩ ∧
    (rotate hash (rotate hash rows t1 now t2 e2).2 t1 now₂ t3 e3).1 =
      .inl .TokenReuseDetected ∧
    (∀ r ∈ (rotate hash (rotate hash rows t1 now t2 e2).2 t1 now₂ t3 e3).2,
      r.familyId = r1.familyId → r.state = .Revoked) ∧
    (∃ err, (rotate hash
        (rotate hash (rotate hash rows t1 now t2 e2).2 t1 now₂ t3 e3).2
        t2 now₃ t4 e4).1 = .inl err) := by
  have hT1hash : r1.tokenHash = hash t1 := by
    have := List.find?_some hfind
    simpa using this
  have hmem1 : r1 ∈ rows := List.mem_of_find?_eq_some hfind
  have hne : hash t2 ≠ hash t1 := by
    have := hfresh r1 hmem1
    rw [hT1hash] at this
    exact fun hcon => this hcon.symm
  have hrot1 : rotate hash rows t1 now t2 e2 =
      (.inr t2, (⟨hash t2, r1.familyId, r1.identityId, .Active, e2⟩ : TokenRow) ::
        consumeToken rows r1.tokenHash) := by
    simp [rotate, hfind, hactive, show ¬ r1.expiresAt ≤ now by omega]
  have hfind2 : findToken ((⟨hash t2, r1.familyId, r1.identityId, .Active, e2⟩ : TokenRow) ::
      consumeToken rows r1.tokenHash) (hash t1) =
      some { r1 with state := .Consumed } := by
    unfold findToken
    rw [List.find?_cons_of_neg _ (by simpa using hne)]
    show findToken (consumeToken rows r1.tokenHash) (hash t1) = _
    unfold consumeToken
    rw [findToken_map _ (consume_preserves_hash r1.tokenHash), hfind]
    simp [hT1hash]
  have hfindT2 : findToken ((⟨hash t2, r1.familyId, r1.identityId, .Active, e2⟩ : TokenRow) ::
      consumeToken rows r1.tokenHash) (hash t2) =
      some ⟨hash t2, r1.familyId, r1.identityId, .Active, e2⟩ := by
    unfold findToken
    rw [List.find?_cons_of_pos _ (by simp)]
  have hrot2 : rotate hash ((⟨hash t2, r1.familyId, r1.identityId, .Active, e2⟩ : TokenRow) ::
      consumeToken rows r1.tokenHash) t1 now₂ t3 e3 =
      (.inl .TokenReuseDetected,
        revokeFamily ((⟨hash t2, r1.familyId, r1.identityId, .Active, e2⟩ : TokenRow) ::
          consumeToken rows r1.tokenHash) r1.familyId) := by
    simp [rotate, hfind2, show ¬ r1.expiresAt ≤ now₂ by omega]
  have hfindT2rev : findToken (revokeFamily
      ((⟨hash t2, r1.familyId, r1.identityId, .Active, e2⟩ : TokenRow) ::
        consumeToken rows r1.tokenHash) r1.familyId) (hash t2) =
      some ⟨hash t2, r1.familyId, r1.identityId, .Revoked, e2⟩ := by
    unfold revokeFamily
    rw [findToken_map _ (revoke_preserves_hash r1.familyId), hfindT2]
    simp
  refine ⟨by rw [hrot1], ?_, ?_, ?_, ?_⟩
  · rw [hrot1]
    exact hfindT2
  · rw [hrot1]
    show (rotate hash _ t1 now₂ t3 e3).1 = _
    rw [hrot2]
  · rw [hrot1]
    show ∀ r ∈ (rotate hash _ t1 now₂ t3 e3).2, _
    rw [hrot2]
    exact revokeFamily_state _ _
  · rw [hrot1]
    show ∃ err, (rotate hash (rotate hash _ t1 now₂ t3 e3).2 t2 now₃ t4 e4).1 = .inl err
    rw [hrot2]
    by_cases hexp : e2 ≤ now₃
    · exact ⟨.TokenExpired, by simp [rotate, hfindT2rev, hexp]⟩
    · exact ⟨.TokenInvalid, by simp [rotate, hfindT2rev, hexp]⟩

/-- Witness for C1 on a concrete one-row store. -/
theorem rotate_reuse_detection_witness :
    (rotate id [⟨1, 10, 5, .Active, 100⟩] 1 0 2 100).1 = .inr 2 ∧
    (rotate id (rotate id [⟨1, 10, 5, .Active, 100⟩] 1 0 2 100).2 1 3 7 100).1 =
      .inl .TokenReuseDetected ∧
    (∃ err, (rotate id
        (rotate id (rotate id [⟨1, 10, 5, .Active, 100⟩] 1 0 2 100).2 1 3 7 100).2
        2 4 8 100).1 = .inl err) := by
  have h := rotate_reuse_detection id [⟨1, 10, 5, .Active, 100⟩] 1 2 7 8 0 3 4 100 100 100
    ⟨1, 10, 5, .Active, 100⟩ (by decide) rfl (by decide) (by decide) (by decide)
  exact ⟨h.1, h.2.2.1, h.2.2.2.2⟩

/-- C2 counterexample: in the schema as written, a `refresh_tokens` row
carries its lifecycle in the single boolean column `revoked`, and no
reading of that flag can distinguish the three states
`Active/Consumed/Revoked`: any state assignment to rows that depends
only on `revoked` cannot be surjective onto `TokenState`. -/
theorem tokenState_not_boolean_representable :
    ¬ ∃ stateOf : RefreshTokenRow → TokenState,
        (∀ r₁ r₂ : RefreshTokenRow, r₁.revoked = r₂.revoked → stateOf r₁ = stateOf r₂) ∧
        Function.Surjective stateOf := by
  rintro ⟨f, hdep, hsurj⟩
  obtain ⟨ra, ha⟩ := hsurj .Active
  obtain ⟨rc, hc⟩ := hsurj .Consumed
  obtain ⟨rr, hr⟩ := hsurj .Revoked
  have hpair : f ra = f rc ∨ f ra = f rr ∨ f rc = f rr := by
    cases hba : ra.revoked <;> cases hbc : rc.revoked <;> cases hbr : rr.revoked
    · exact .inl (hdep ra rc (by rw [hba, hbc]))
    · exact .inl (hdep ra rc (by rw [hba, hbc]))
    · exact .inr (.inl (hdep ra rr (by rw [hba, hbr])))
    · exact .inr (.inr (hdep rc rr (by rw [hbc, hbr])))
    · exact .inr (.inr (hdep rc rr (by rw [hbc, hbr])))
    · exact .inr (.inl (hdep ra rr (by rw [hba, hbr])))
    · exact .inl (hdep ra rc (by rw [hba, hbc]))
    · exact .inl (hdep ra rc (by rw [hba, hbc]))
  rcases hpair with h | h | h
  · rw [ha, hc] at h
    exact absurd h (by decide)
  · rw [ha, hr] at h
    exact absurd h (by decide)
  · rw [hc, hr] at h
    exact absurd h (by decide)

/-- The revoke update only makes legal transitions: every resulting row
descends from a source row with the same hash, either unchanged or moved
along `TokenStep`. -/
theorem revokeFamily_legal (rows : TokenStore) (fid : Nat) :
    ∀ r' ∈ revokeFamily rows fid,
      ∃ r ∈ rows, r'.tokenHash = r.tokenHash ∧
        (r'.state = r.state ∨ TokenStep r.state r'.state) := by
  intro r' hr'
  simp only [revokeFamily, List.mem_map] at hr'
  obtain ⟨q, hq, rfl⟩ := hr'
  refine ⟨q, hq, ?_⟩
  by_cases hc : q.familyId = fid
  · rw [if_pos (by simp [hc])]
    refine ⟨rfl, ?_⟩
    show TokenState.Revoked = q.state ∨ TokenStep q.state TokenState.Revoked
    cases hs : q.state
    · exact .inr TokenStep.revokeActive
    · exact .inr TokenStep.revokeConsumed
    · exact .inl rfl
  · rw [if_neg (by simp [hc])]
    exact ⟨rfl, .inl rfl⟩

/-- C2 (amended): the modelled tracker operations respect the three-state
machine — `revokeFamily` and `rotate` (on a store with distinct token
hashes, as the schema's UNIQUE constraint guarantees) change each stored
row only along `Active → Consumed`, `Active → Revoked` or
`Consumed → Revoked`, the only row `rotate` inserts is the fresh
`Active` one, and no transition leaves `Revoked`. -/
theorem token_transitions_legal :
    (∀ rows fid, ∀ r' ∈ revokeFamily rows fid,
      ∃ r ∈ rows, r'.tokenHash = r.tokenHash ∧
        (r'.state = r.state ∨ TokenStep r.state r'.state)) ∧
    (∀ (hash : Nat → Nat) (rows : TokenStore) (p now f e : Nat),
      (rows.map TokenRow.tokenHash).Nodup →
      ∀ r' ∈ (rotate hash rows p now f e).2,
        (r'.state = .Active ∧ r'.tokenHash = hash f) ∨
        ∃ r ∈ rows, r'.tokenHash = r.tokenHash ∧
          (r'.state = r.state ∨ TokenStep r.state r'.state)) ∧
    (∀ s, ¬ TokenStep .Revoked s) := by
  refine ⟨revokeFamily_legal, ?_, fun s h => by cases h⟩
  intro hash rows p now f e hnodup r' hr'
  cases hfind : findToken rows (hash p) with
  | none =>
      rw [show (rotate hash rows p now f e).2 = rows by simp [rotate, hfind]] at hr'
      exact .inr ⟨r', hr', rfl, .inl rfl⟩
  | some r =>
      have hrmem : r ∈ rows := List.mem_of_find?_eq_some hfind
      by_cases hexp : r.expiresAt ≤ now
      · rw [show (rotate hash rows p now f e).2 = rows by
          simp [rotate, hfind, hexp]] at hr'
        exact .inr ⟨r', hr', rfl, .inl rfl⟩
      · cases hstate : r.state with
        | Revoked =>
            rw [show (rotate hash rows p now f e).2 = rows by
              simp [rotate, hfind, hexp, hstate]] at hr'
            exact .inr ⟨r', hr', rfl, .inl rfl⟩
        | Consumed =>
            rw [show (rotate hash rows p now f e).2 = revokeFamily rows r.familyId by
              simp [rotate, hfind, hexp, hstate]] at hr'
            exact .inr (revokeFamily_legal rows r.familyId r' hr')
        | Active =>
            rw [show (rotate hash rows p now f e).2 =
                (⟨hash f, r.familyId, r.identityId, .Active, e⟩ : TokenRow) ::
                  consumeToken rows r.tokenHash by
              simp [rotate, hfind, hexp, hstate]] at hr'
            rcases List.mem_cons.mp hr' with rfl | hr'
            · exact .inl ⟨rfl, rfl⟩
            · simp only [consumeToken, List.mem_map] at hr'
              obtain ⟨q, hq, rfl⟩ := hr'
              by_cases hc : q.tokenHash = r.tokenHash
              · have hqr : q = r := List.inj_on_of_nodup_map hnodup hq hrmem hc
                subst hqr
                rw [if_pos (by simp)]
                exact .inr ⟨q, hq, rfl, .inr (by rw [hstate]; exact TokenStep.consume)⟩
              · rw [if_neg (by simp [hc])]
                exact .inr ⟨q, hq, rfl, .inl rfl⟩

/-- Witness for C2 (amended) at a concrete rotation: the consumed row of
the one-row store descends from the original row by a legal step. -/
theorem token_transitions_legal_witness :
    ((⟨1, 10, 5, TokenState.Consumed, 100⟩ : TokenRow).state = .Active ∧
      (⟨1, 10, 5, TokenState.Consumed, 100⟩ : TokenRow).tokenHash = id 2) ∨
    ∃ r ∈ [(⟨1, 10, 5, TokenState.Active, 100⟩ : TokenRow)],
      (⟨1, 10, 5, TokenState.Consumed, 100⟩ : TokenRow).tokenHash = r.tokenHash ∧
      ((⟨1, 10, 5, TokenState.Consumed, 100⟩ : TokenRow).state = r.state ∨
        TokenStep r.state (⟨1, 10, 5, TokenState.Consumed, 100⟩ : TokenRow).state) :=
  token_transitions_legal.2.1 id [⟨1, 10, 5, .Active, 100⟩] 1 0 2 100 (by decide)
    ⟨1, 10, 5, .Consumed, 100⟩ (by decide)

/-- The witness wrapping never returns the plaintext key. -/
theorem wrapToy_ne (k pk : List Nat) : wrapToy k pk ≠ k := by
  intro h
  have := congrArg List.length h
  simp [wrapToy] at this

/-- The witness wrapping separates participant keys. -/
theorem wrapToy_inj (k : List Nat) : Function.Injective (wrapToy k) := by
  intro pk pk' h
  have h' := List.append_inj_right h rfl
  simp only [List.cons.injEq, and_true] at h'
  exact encL_inj _ _ h'

/-- C7: for any wrapping that never returns the plaintext key and
separates participant keys, `createConversation([p₁, p₂])` stores
exactly one envelope per participant of the new conversation, the two
envelopes are distinct, neither equals the plaintext conversation key,
and subsequent message traffic leaves the stored envelopes untouched. -/
theorem createConversation_envelopes (wrap : List Nat → List Nat → List Nat)
    (hne : ∀ k pk, wrap k pk ≠ k)
    (hinj : ∀ k, Function.Injective (wrap k))
    (st : ServerStore) (convId : Nat) (key : List Nat) (p₁ p₂ : ParticipantKey)
    (hpk : p₁.publicKey ≠ p₂.publicKey)
    (hid : p₁.identityId ≠ p₂.identityId)
    (hfreshConv : ∀ env ∈ st.envelopes, env.conversationId ≠ convId) :
    (createConversation wrap st convId key [p₁, p₂]).envelopes =
      ⟨convId, p₁.identityId, wrap key p₁.publicKey⟩ ::
      ⟨convId, p₂.identityId, wrap key p₂.publicKey⟩ :: st.envelopes ∧
    wrap key p₁.publicKey ≠ wrap key p₂.publicKey ∧
    wrap key p₁.publicKey ≠ key ∧
    wrap key p₂.publicKey ≠ key ∧
    ((createConversation wrap st convId key [p₁, p₂]).envelopes.filter
      (fun env => env.conversationId == convId &&
        env.identityId == p₁.identityId)).length = 1 ∧
    ((createConversation wrap st convId key [p₁, p₂]).envelopes.filter
      (fun env => env.conversationId == convId &&
        env.identityId == p₂.identityId)).length = 1 ∧
    (∀ cid sid content nonce,
      (sendMessage (createConversation wrap st convId key [p₁, p₂])
        cid sid content nonce).2.envelopes =
      (createConversation wrap st convId key [p₁, p₂]).envelopes) := by
  have henv : (createConversation wrap st convId key [p₁, p₂]).envelopes =
      ⟨convId, p₁.identityId, wrap key p₁.publicKey⟩ ::
      ⟨convId, p₂.identityId, wrap key p₂.publicKey⟩ :: st.envelopes := by
    simp [createConversation]
  have hold : ∀ x : Nat, st.envelopes.filter
      (fun env => env.conversationId == convId && env.identityId == x) = [] := by
    intro x
    rw [List.filter_eq_nil_iff]
    intro env henvm
    simp [hfreshConv env henvm]
  refine ⟨henv, fun h => hpk (hinj key h), hne key p₁.publicKey, hne key p₂.publicKey,
    ?_, ?_, fun _ _ _ _ => rfl⟩
  · rw [henv]
    rw [List.filter_cons_of_pos (by simp), List.filter_cons_of_neg (by simp [Ne.symm hid]),
      hold p₁.identityId]
    rfl
  · rw [henv]
    rw [List.filter_cons_of_neg (by simp [hid]), List.filter_cons_of_pos (by simp),
      hold p₂.identityId]
    rfl

/-- Witness for C7 on the concrete wrapping and a two-participant
conversation. -/
theorem createConversation_envelopes_witness :
    wrapToy [9] [1] ≠ wrapToy [9] [2] ∧
    wrapToy [9] [1] ≠ [9] ∧
    ((createConversation wrapToy ⟨[], []⟩ 0 [9] [⟨1, [1]⟩, ⟨2, [2]⟩]).envelopes.filter
      (fun env => env.conversationId == 0 && env.identityId == 1)).length = 1 := by
  have h := createConversation_envelopes wrapToy wrapToy_ne wrapToy_inj
    ⟨[], []⟩ 0 [9] ⟨1, [1]⟩ ⟨2, [2]⟩ (by decide) (by decide) (by simp)
  exact ⟨h.2.1, h.2.2.1, h.2.2.2.2.1⟩

/-- C10: the auth store's `isAuthenticated` flag agrees with nullability of
`tokens`: the invariant holds initially, is preserved by `setTokens`,
`setIdentity`, `setKeypair` and `logout`, and `logout` clears all three
nullable fields and the flag in a single state update. -/
theorem authStore_isAuthenticated_iff_tokens :
    AuthState.init.Inv ∧
    (∀ s t, s.Inv → (AuthState.setTokens s t).Inv) ∧
    (∀ s i, s.Inv → (AuthState.setIdentity s i).Inv) ∧
    (∀ s k, s.Inv → (AuthState.setKeypair s k).Inv) ∧
    (∀ s, AuthState.logout s =
      { tokens := none, identity := none, keypair := none,
        isAuthenticated := false }) := by
  refine ⟨by simp [AuthState.Inv, AuthState.init], ?_, ?_, ?_, fun s => rfl⟩
  · intro s t _
    simp [AuthState.Inv, AuthState.setTokens]
  · intro s i h
    simpa [AuthState.Inv, AuthState.setIdentity] using h
  · intro s k h
    simpa [AuthState.Inv, AuthState.setKeypair] using h

/-- Witness for C10 at a concrete state: the invariant transfer runs on the
initial state with concrete tokens. -/
theorem authStore_isAuthenticated_iff_tokens_witness :
    (AuthState.setTokens AuthState.init ⟨"a", "r", 900⟩).Inv ∧
    (AuthState.logout AuthState.init).tokens = none := by
  refine ⟨authStore_isAuthenticated_iff_tokens.2.1 AuthState.init ⟨"a", "r", 900⟩ ?_, ?_⟩
  · exact authStore_isAuthenticated_iff_tokens.1
  · rw [authStore_isAuthenticated_iff_tokens.2.2.2.2 AuthState.init]

end SilentAlliance
